import Mathlib

/-!
Shallow embedding of the ledger-ingestion and classification core shared by
`excel_itemizer_docx.py` and `excel_itemizer_docx_tables.py` (the two scripts
have byte-identical `parse_sheet_date`, `load_ledger` and `compute_sections`).
Amounts are modelled as rationals, spreadsheet cells as an inductive type,
and the per-sheet exception behaviour of `pd.Timestamp` as an `Except`.
Column lookup by header name is modelled by column position; duplicate
normalized header names (on which pandas itself misbehaves) are not modelled.
-/

namespace Surti

/-- Calendar date with plain numeric fields, as produced by
`pd.Timestamp(year=y, month=m, day=d).date()`. -/
structure Date where
  year : Nat
  month : Nat
  day : Nat
deriving DecidableEq

/-- A spreadsheet cell as the loader sees it: non-numeric text, a numeric
value, or blank (NaN). -/
inductive Cell where
  | text (s : String)
  | num (q : ℚ)
  | empty
deriving DecidableEq

/-- Models `pd.to_numeric(..., errors="coerce")`: numeric cells keep their value,
anything else becomes null. -/
def Cell.toNumeric : Cell → Option ℚ
  | .num q => some q
  | _ => none

/-- Models `astype(str)` applied to a raw cell: a null stringifies as `"nan"`. -/
def Cell.toPyStr : Cell → String
  | .text s => s
  | .num q => toString q
  | .empty => "nan"

/-- ASCII upper-casing of one character (`str.upper()` restricted to the ASCII
range, which covers every token the program matches on). -/
def upChar (c : Char) : Char :=
  if 'a' ≤ c ∧ c ≤ 'z' then Char.ofNat (c.toNat - 32) else c

/-- Models `str.upper()`. -/
def pyUpper (s : String) : String := ⟨s.data.map upChar⟩

/-- Whitespace trimming on a character list (both ends). -/
def trimChars (cs : List Char) : List Char :=
  ((cs.dropWhile Char.isWhitespace).reverse.dropWhile Char.isWhitespace).reverse

/-- Models `str.strip()`. -/
def pyTrim (s : String) : String := ⟨trimChars s.data⟩

def splitCommaAux : List Char → List Char → List (List Char)
  | [], acc => [acc.reverse]
  | c :: cs, acc =>
    if c = ',' then acc.reverse :: splitCommaAux cs [] else splitCommaAux cs (c :: acc)

/-- Models `str.split(",")`. -/
def pySplitComma (s : String) : List String :=
  (splitCommaAux s.data []).map (fun cs => ⟨cs⟩)

def digitsToNat (cs : List Char) : Nat :=
  cs.foldl (fun a c => 10 * a + (c.toNat - 48)) 0

/-- The sheet-name pattern: 1-2 digits, a slash-or-dash separator, 1-2 digits,
a separator, 4 digits, anchored at both ends; returns the numeric groups
`(day, month, year)`. -/
def matchSheetName (cs : List Char) : Option (Nat × Nat × Nat) :=
  let p1 := cs.span Char.isDigit
  if p1.1.length = 0 ∨ 2 < p1.1.length then none else
  match p1.2 with
  | [] => none
  | s1 :: r2 =>
    if s1 = '/' ∨ s1 = '-' then
      let p2 := r2.span Char.isDigit
      if p2.1.length = 0 ∨ 2 < p2.1.length then none else
      match p2.2 with
      | [] => none
      | s2 :: r4 =>
        if s2 = '/' ∨ s2 = '-' then
          let p3 := r4.span Char.isDigit
          if p3.1.length = 4 ∧ p3.2 = [] then
            some (digitsToNat p1.1, digitsToNat p2.1, digitsToNat p3.1)
          else none
        else none
    else none

def isLeap (y : Nat) : Bool := y % 4 == 0 && (y % 100 != 0 || y % 400 == 0)

def daysInMonth (y m : Nat) : Nat :=
  if m = 2 then (if isLeap y then 29 else 28)
  else if m = 4 ∨ m = 6 ∨ m = 9 ∨ m = 11 then 30
  else 31

/-- Bounds check: `pd.Timestamp` only accepts dates in the nanosecond-epoch range (midnights
from 1677-09-22 through 2262-04-11); outside it the constructor raises. -/
def tsInBounds (y m d : Nat) : Bool :=
  (decide (1678 ≤ y) || (y == 1677 && (decide (10 ≤ m) || (m == 9 && decide (22 ≤ d))))) &&
  (decide (y ≤ 2261) || (y == 2262 && (decide (m ≤ 3) || (m == 4 && decide (d ≤ 11)))))

/-- The validity check performed by `pd.Timestamp(year=y, month=m, day=d)`. -/
def timestampValid (y m d : Nat) : Bool :=
  decide (1 ≤ m) && decide (m ≤ 12) && decide (1 ≤ d) &&
    decide (d ≤ daysInMonth y m) && tsInBounds y m d

/-- Outcome of `parse_sheet_date`: a name that misses the regex returns `None`;
a name that matches builds a `pd.Timestamp`, which raises on an invalid or
out-of-range date. -/
inductive DateParse where
  | noDate
  | someDate (d : Date)
  | raises
deriving DecidableEq

def parse_sheet_date (name : String) : DateParse :=
  match matchSheetName (trimChars name.data) with
  | none => .noDate
  | some (d, m, y) => if timestampValid y m d then .someDate ⟨y, m, d⟩ else .raises

/-- Test `charsHasPre needle hay`: `needle` is an initial segment of `hay`. -/
def charsHasPre : List Char → List Char → Bool
  | [], _ => true
  | _ :: _, [] => false
  | a :: as, b :: bs => a == b && charsHasPre as bs

/-- Test `charsHasSub needle hay`: `needle` occurs contiguously inside `hay`. -/
def charsHasSub (needle : List Char) : List Char → Bool
  | [] => needle.isEmpty
  | b :: t => charsHasPre needle (b :: t) || charsHasSub needle t

/-- Python `small in big` on strings: substring containment. -/
def strContainsSub (big small : String) : Bool :=
  charsHasSub small.data big.data

/-- The `col_map` built by the header scan (columns addressed by position). -/
structure ColMap where
  cuenta : Option Nat
  debe : Option Nat
  haber : Option Nat
deriving DecidableEq

/-- One step of the header loop: an if/elif chain that overwrites the slot. -/
def colStep (acc : ColMap) (q : Nat × String) : ColMap :=
  if strContainsSub q.2 "CUENTA" then { acc with cuenta := some q.1 }
  else if strContainsSub q.2 "DEBE" then { acc with debe := some q.1 }
  else if strContainsSub q.2 "HABER" then { acc with haber := some q.1 }
  else acc

/-- The header scan of `load_ledger` over normalized header names. -/
def detectCols (hdr : List String) : ColMap :=
  hdr.enum.foldl colStep ⟨none, none, none⟩

/-- Positional fallback: the sheet's first three columns, padded with `None`. -/
def positional3 (n : Nat) : ColMap :=
  ⟨if 0 < n then some 0 else none, if 1 < n then some 1 else none,
   if 2 < n then some 2 else none⟩

def colMapFor (hdr : List String) : ColMap :=
  let det := detectCols hdr
  if det.cuenta = none ∨ det.debe = none then positional3 hdr.length else det

/-- Extract a column's cell from a row; an absent column is all-null. -/
def colCell (row : List Cell) : Option Nat → Cell
  | none => .empty
  | some i => row.getD i .empty

/-- A row of a per-sheet frame before the final date filter. -/
structure RawLine where
  fecha : Option Date
  cuenta : String
  debe : Option ℚ
  haber : Option ℚ
deriving DecidableEq

/-- One data row after coercion and the two row filters of `load_ledger`:
drop if account, debit and credit are all null; drop if the stringified
account, upper-cased (not trimmed), is the header token `"CUENTA"`;
otherwise keep it with the account stringified and trimmed. -/
def rowRaw (fecha : Option Date) (cm : ColMap) (row : List Cell) : Option RawLine :=
  if colCell row cm.cuenta = Cell.empty ∧ (colCell row cm.debe).toNumeric = none ∧
      (colCell row cm.haber).toNumeric = none then none
  else if pyUpper (colCell row cm.cuenta).toPyStr = "CUENTA" then none
  else some ⟨fecha, pyTrim (colCell row cm.cuenta).toPyStr,
             (colCell row cm.debe).toNumeric, (colCell row cm.haber).toNumeric⟩

structure Sheet where
  name : String
  header : List String
  rows : List (List Cell)
deriving DecidableEq

/-- Process one sheet: normalize headers, detect columns, stamp every row with
the sheet-name date. A raising date parse aborts the whole run. -/
def sheetRaw (sh : Sheet) : Except Unit (List RawLine) :=
  let cm := colMapFor (sh.header.map (fun c => pyUpper (pyTrim c)))
  match parse_sheet_date sh.name with
  | .raises => .error ()
  | .noDate => .ok (sh.rows.filterMap (rowRaw none cm))
  | .someDate d => .ok (sh.rows.filterMap (rowRaw (some d) cm))

/-- Concatenation of the per-sheet frames, propagating any raised exception. -/
def collectRaw : List Sheet → Except Unit (List RawLine)
  | [] => .ok []
  | sh :: rest =>
    match sheetRaw sh, collectRaw rest with
    | .ok rs, .ok acc => .ok (rs ++ acc)
    | .error e, _ => .error e
    | .ok _, .error e => .error e

/-- A row of the unified ledger (date always resolved). -/
structure LedgerLine where
  fecha : Date
  cuenta : String
  debe : Option ℚ
  haber : Option ℚ
deriving DecidableEq

def promote (r : RawLine) : Option LedgerLine :=
  match r.fecha with
  | some d => some ⟨d, r.cuenta, r.debe, r.haber⟩
  | none => none

/-- The loader `load_ledger`: concatenate all sheets' surviving rows, then drop the rows
without a resolved date. -/
def load_ledger (sheets : List Sheet) : Except Unit (List LedgerLine) :=
  match collectRaw sheets with
  | .error e => .error e
  | .ok rs => .ok (rs.filterMap promote)

def debeVal (l : LedgerLine) : ℚ := l.debe.getD 0

def haberVal (l : LedgerLine) : ℚ := l.haber.getD 0

/-- Comparison `Debe > 0` in pandas: null compares false. -/
def debePos (l : LedgerLine) : Bool :=
  match l.debe with
  | some v => decide (0 < v)
  | none => false

def haberPos (l : LedgerLine) : Bool :=
  match l.haber with
  | some v => decide (0 < v)
  | none => false

/-- Comparison `Debe >= min_transfer_debe` in pandas: null compares false. -/
def debeGe (minD : ℚ) (l : LedgerLine) : Bool :=
  match l.debe with
  | some v => decide (minD ≤ v)
  | none => false

/-- Test `Cuenta.str.upper() == petty_cash_name.upper()`. -/
def isPetty (key : String) (l : LedgerLine) : Bool :=
  pyUpper l.cuenta == pyUpper key

def atDate (d : Date) (ls : List LedgerLine) : List LedgerLine :=
  ls.filter (fun l => l.fecha == d)

/-- The rows grouped into `retiros`: petty-cash lines with positive debit. -/
def retirosLines (lines : List LedgerLine) (key : String) : List LedgerLine :=
  lines.filter (fun l => isPetty key l && debePos l)

/-- The group keys of the `retiros` table. -/
def retirosDates (lines : List LedgerLine) (key : String) : Finset Date :=
  ((retirosLines lines key).map (·.fecha)).toFinset

/-- Column `Monto`: per-date sum of the petty-cash debit lines. -/
def montoAt (lines : List LedgerLine) (key : String) (d : Date) : ℚ :=
  ((atDate d (retirosLines lines key)).map debeVal).sum

/-- The `detalles` frame: every positive-debit line on a non-petty-cash account. -/
def detalles (lines : List LedgerLine) (key : String) : List LedgerLine :=
  lines.filter (fun l => debePos l && !(isPetty key l))

def detalleTotalAt (lines : List LedgerLine) (key : String) (d : Date) : ℚ :=
  ((atDate d (detalles lines key)).map debeVal).sum

/-- The `det_totals` frame: grouped detail totals, one row per detail date. -/
def detTotalsTable (lines : List LedgerLine) (key : String) : List (Date × ℚ) :=
  (((detalles lines key).map (·.fecha)).dedup).map (fun d => (d, detalleTotalAt lines key d))

/-- Left-merge lookup followed by `fillna(0)`. -/
def lookupFill (t : List (Date × ℚ)) (d : Date) : ℚ :=
  match t.find? (fun p => p.1 == d) with
  | some p => p.2
  | none => 0

/-- Rounding to zero decimals with ties to even (`Series.round(0)`). -/
def roundHalfEven (q : ℚ) : Int :=
  if q - ⌊q⌋ < 1/2 then ⌊q⌋
  else if (1 : ℚ)/2 < q - ⌊q⌋ then ⌊q⌋ + 1
  else if ⌊q⌋ % 2 = 0 then ⌊q⌋ else ⌊q⌋ + 1

/-- Column `Efectivo`: rounded difference between withdrawal and merged detail total. -/
def efectivoAt (lines : List LedgerLine) (key : String) (d : Date) : ℚ :=
  (roundHalfEven (montoAt lines key d - lookupFill (detTotalsTable lines key) d) : ℚ)

/-- Models `Haber.fillna(0).sum()`. -/
def creditSum (lines : List LedgerLine) : ℚ := (lines.map haberVal).sum

/-- Models `Haber.notna().any()`. -/
def anyCredit (lines : List LedgerLine) : Bool := lines.any (fun l => l.haber.isSome)

inductive TransferMode where
  | credit
  | keyword
deriving DecidableEq

/-- Global transfer-detection mode, chosen once from the whole ledger. -/
def transferMode (lines : List LedgerLine) : TransferMode :=
  if anyCredit lines && decide (0 < creditSum lines) then .credit else .keyword

/-- Preprocessing of the comma-separated `--transfer-keywords` option. -/
def keywordList (raw : String) : List String :=
  ((pySplitComma raw).filter (fun k => pyTrim k ≠ "")).map (fun k => pyUpper (pyTrim k))

/-- Models `any(k in x for k in transfer_keywords)` over the upper-cased account. -/
def kwMatch (kws : List String) (l : LedgerLine) : Bool :=
  kws.any (fun k => strContainsSub (pyUpper l.cuenta) k)

/-- The `posibles_trans` frame: the transfer candidates of the active mode. -/
def posiblesTrans (lines : List LedgerLine) (minD : ℚ) (kws : List String) :
    List LedgerLine :=
  match transferMode lines with
  | .credit => lines.filter haberPos
  | .keyword => lines.filter (fun l => debeGe minD l && kwMatch kws l)

/-- The value column selected by the active mode. -/
def transValue (lines : List LedgerLine) (l : LedgerLine) : ℚ :=
  match transferMode lines with
  | .credit => haberVal l
  | .keyword => debeVal l

def transDailyAt (lines : List LedgerLine) (minD : ℚ) (kws : List String) (d : Date) : ℚ :=
  ((atDate d (posiblesTrans lines minD kws)).map (transValue lines)).sum

/-- The `trans_diario` frame as a keyed table, one row per candidate date. -/
def transDiarioTable (lines : List LedgerLine) (minD : ℚ) (kws : List String) :
    List (Date × ℚ) :=
  (((posiblesTrans lines minD kws).map (·.fecha)).dedup).map
    (fun d => (d, transDailyAt lines minD kws d))

/-- The scalar `total_trans`: the sum of the daily-total column (0 on an empty table). -/
def totalTrans (lines : List LedgerLine) (minD : ℚ) (kws : List String) : ℚ :=
  ((transDiarioTable lines minD kws).map (·.2)).sum

/-- Spec reading for column detection: the FIRST header cell containing the
token, as the specification words it. -/
def firstIdxContaining (hdr : List String) (tok : String) : Option Nat :=
  (hdr.enum.find? (fun q => strContainsSub q.2 tok)).map (·.1)

def orO (a b : Option Nat) : Option Nat :=
  match a with
  | some x => some x
  | none => b

/-- Index of the LAST entry whose name satisfies `p`. -/
def lastIdx (p : String → Bool) : List (Nat × String) → Option Nat
  | [] => none
  | q :: ps => orO (lastIdx p ps) (if p q.2 then some q.1 else none)

def predCuenta (s : String) : Bool := strContainsSub s "CUENTA"

def predDebe (s : String) : Bool := !predCuenta s && strContainsSub s "DEBE"

def predHaber (s : String) : Bool :=
  !predCuenta s && !strContainsSub s "DEBE" && strContainsSub s "HABER"

/-! Helper lemmas about the loader. -/

theorem collectRaw_nil : collectRaw [] = .ok [] := rfl

theorem collectRaw_cons (sh : Sheet) (rest : List Sheet) :
    collectRaw (sh :: rest) =
      match sheetRaw sh, collectRaw rest with
      | .ok rs, .ok acc => .ok (rs ++ acc)
      | .error e, _ => .error e
      | .ok _, .error e => .error e := rfl

theorem load_ledger_eq (sheets : List Sheet) :
    load_ledger sheets =
      match collectRaw sheets with
      | .error e => .error e
      | .ok rs => .ok (rs.filterMap promote) := rfl

theorem rowRaw_fecha {f : Option Date} {cm : ColMap} {row : List Cell} {r : RawLine}
    (h : rowRaw f cm row = some r) : r.fecha = f := by
  unfold rowRaw at h
  split at h
  · exact absurd h (by simp)
  · split at h
    · exact absurd h (by simp)
    · cases h
      rfl

theorem promote_none {r : RawLine} (h : r.fecha = none) : promote r = none := by
  unfold promote
  rw [h]

theorem sheetRaw_noDate {sh : Sheet} (h : matchSheetName (trimChars sh.name.data) = none) :
    ∃ rs, sheetRaw sh = .ok rs ∧ rs.filterMap promote = [] := by
  have hp : parse_sheet_date sh.name = .noDate := by
    unfold parse_sheet_date
    rw [h]
  refine ⟨sh.rows.filterMap (rowRaw none (colMapFor (sh.header.map (fun c => pyUpper (pyTrim c))))),
          ?_, ?_⟩
  · unfold sheetRaw
    rw [hp]
  · rw [List.filterMap_eq_nil_iff]
    intro r hr
    obtain ⟨row, _, hrow⟩ := List.mem_filterMap.mp hr
    exact promote_none (rowRaw_fecha hrow)

theorem collectRaw_append (l1 l2 : List Sheet) :
    collectRaw (l1 ++ l2) =
      match collectRaw l1, collectRaw l2 with
      | .ok a, .ok b => .ok (a ++ b)
      | .error e, _ => .error e
      | .ok _, .error e => .error e := by
  induction l1 with
  | nil =>
    rw [List.nil_append, collectRaw_nil]
    cases h : collectRaw l2 <;> simp
  | cons sh rest ih =>
    rw [List.cons_append, collectRaw_cons, collectRaw_cons, ih]
    cases h1 : sheetRaw sh <;> cases h2 : collectRaw rest <;> cases h3 : collectRaw l2 <;>
      simp [List.append_assoc]

/-- Claim C7 fails on the code: the sheet name `"31/02/2025"` does not denote a
calendar date (there is no February 31st), yet `load_ledger` raises instead of
skipping the sheet: the run aborts. -/
theorem claim_C7_cex :
    load_ledger [⟨"31/02/2025", ["CUENTA", "DEBE", "HABER"],
                  [[.text "X", .num 100, .empty]]⟩] = .error () := by
  rfl

/-- Claim C7, amended: a sheet whose name does not match the date pattern
(1-2 digits, slash-or-dash separator, 1-2 digits, separator, 4 digits)
contributes zero lines to the unified ledger and raises no error; a name that
matches the pattern but denotes an invalid or out-of-range calendar date
raises and is fatal. -/
theorem claim_C7 (pre post : List Sheet) (sh : Sheet)
    (h : matchSheetName (trimChars sh.name.data) = none) :
    load_ledger (pre ++ sh :: post) = load_ledger (pre ++ post) := by
  obtain ⟨rs, hok, hnil⟩ := sheetRaw_noDate h
  rw [load_ledger_eq, load_ledger_eq, collectRaw_append pre (sh :: post),
      collectRaw_append pre post, collectRaw_cons, hok]
  cases h1 : collectRaw pre <;> cases h2 : collectRaw post <;>
    simp [List.filterMap_append, hnil]

/-- Witness for the amended C7 at a concrete workbook: a sheet named
`"Summary"` contributes nothing and does not abort the run. -/
theorem claim_C7_witness :
    load_ledger ([⟨"05/08/2025", ["CUENTA", "DEBE", "HABER"],
                   [[.text "CAJA MENOR", .num 500000, .empty]]⟩] ++
                 ⟨"Summary", ["CUENTA", "DEBE", "HABER"],
                   [[.text "X", .num 1, .empty]]⟩ :: []) =
    load_ledger ([⟨"05/08/2025", ["CUENTA", "DEBE", "HABER"],
                   [[.text "CAJA MENOR", .num 500000, .empty]]⟩] ++ []) :=
  claim_C7 _ _ _ (by decide)

/-- Claim C6: whenever the sheet name matches the date pattern with numeric
groups `(d, m, y)` and a date is derived at all, that date's day, month and
year are exactly the parsed groups: no off-by-one, no timezone shift. -/
theorem claim_C6 (s : String) (d m y : Nat) (dt : Date)
    (hm : matchSheetName (trimChars s.data) = some (d, m, y))
    (hp : parse_sheet_date s = .someDate dt) :
    dt.day = d ∧ dt.month = m ∧ dt.year = y := by
  simp only [parse_sheet_date, hm] at hp
  by_cases hv : timestampValid y m d = true
  · rw [if_pos hv] at hp
    cases hp
    exact ⟨rfl, rfl, rfl⟩
  · rw [if_neg hv] at hp
    exact absurd hp (by simp)

/-- Witness for C6 at the concrete sheet name `"05/08/2025"`. -/
theorem claim_C6_witness :
    (⟨2025, 8, 5⟩ : Date).day = 5 ∧ (⟨2025, 8, 5⟩ : Date).month = 8 ∧
      (⟨2025, 8, 5⟩ : Date).year = 2025 :=
  claim_C6 "05/08/2025" 5 8 2025 ⟨2025, 8, 5⟩ (by decide) (by decide)

/-! Column-detection characterization. -/

theorem orO_none (a : Option Nat) : orO a none = a := by
  cases a <;> rfl

theorem orO_assoc_ite (A : Option Nat) (c : Prop) [Decidable c] (v : Nat) (b : Option Nat) :
    orO A (if c then some v else b) = orO (orO A (if c then some v else none)) b := by
  cases A <;> by_cases hc : c <;> simp [orO, hc]

theorem colStep_cuenta (acc : ColMap) (q : Nat × String) :
    (colStep acc q).cuenta = if predCuenta q.2 then some q.1 else acc.cuenta := by
  unfold colStep predCuenta
  split_ifs <;> simp_all

theorem colStep_debe (acc : ColMap) (q : Nat × String) :
    (colStep acc q).debe = if predDebe q.2 then some q.1 else acc.debe := by
  unfold colStep predDebe predCuenta
  split_ifs <;> simp_all

theorem colStep_haber (acc : ColMap) (q : Nat × String) :
    (colStep acc q).haber = if predHaber q.2 then some q.1 else acc.haber := by
  unfold colStep predHaber predCuenta
  split_ifs <;> simp_all

theorem foldl_colStep_cuenta (ps : List (Nat × String)) (acc : ColMap) :
    (ps.foldl colStep acc).cuenta = orO (lastIdx predCuenta ps) acc.cuenta := by
  induction ps generalizing acc with
  | nil => rfl
  | cons q ps ih =>
    rw [List.foldl_cons, ih, colStep_cuenta, lastIdx]
    exact orO_assoc_ite _ _ _ _

theorem foldl_colStep_debe (ps : List (Nat × String)) (acc : ColMap) :
    (ps.foldl colStep acc).debe = orO (lastIdx predDebe ps) acc.debe := by
  induction ps generalizing acc with
  | nil => rfl
  | cons q ps ih =>
    rw [List.foldl_cons, ih, colStep_debe, lastIdx]
    exact orO_assoc_ite _ _ _ _

theorem foldl_colStep_haber (ps : List (Nat × String)) (acc : ColMap) :
    (ps.foldl colStep acc).haber = orO (lastIdx predHaber ps) acc.haber := by
  induction ps generalizing acc with
  | nil => rfl
  | cons q ps ih =>
    rw [List.foldl_cons, ih, colStep_haber, lastIdx]
    exact orO_assoc_ite _ _ _ _

/-- Claim C5 fails on the code: with normalized headers
`["CUENTA A", "CUENTA B", "DEBE"]` the first header containing the account
token is column 0, but detection assigns the account column to the LAST
matching header, column 1. -/
theorem claim_C5_cex :
    firstIdxContaining ["CUENTA A", "CUENTA B", "DEBE"] "CUENTA" = some 0 ∧
    (colMapFor ["CUENTA A", "CUENTA B", "DEBE"]).cuenta = some 1 ∧
    (colMapFor ["CUENTA A", "CUENTA B", "DEBE"]).cuenta ≠
      firstIdxContaining ["CUENTA A", "CUENTA B", "DEBE"] "CUENTA" := by
  refine ⟨by decide, by decide, by decide⟩

/-- Claim C5, amended: the scan classifies each normalized header cell by an
if/elif chain (a cell containing "CUENTA" is only an account candidate; a cell
containing "DEBE" but not "CUENTA" only a debit candidate; a cell containing
"HABER" but neither of the others only a credit candidate), and each role is
assigned to the LAST matching cell, not the first.  If the account or the
debit role found no cell, all three roles are re-assigned positionally to the
sheet's first three columns (account, debit, credit); positions beyond the
sheet's width are an absent column, and an absent column's cells are all null
(coerced to no numeric value). -/
theorem claim_C5 (hdr : List String) :
    (detectCols hdr).cuenta = lastIdx predCuenta hdr.enum ∧
    (detectCols hdr).debe = lastIdx predDebe hdr.enum ∧
    (detectCols hdr).haber = lastIdx predHaber hdr.enum ∧
    colMapFor hdr = (if (detectCols hdr).cuenta = none ∨ (detectCols hdr).debe = none
                     then positional3 hdr.length else detectCols hdr) ∧
    (∀ row : List Cell, colCell row none = Cell.empty) ∧
    Cell.toNumeric Cell.empty = none := by
  refine ⟨?_, ?_, ?_, rfl, fun _ => rfl, rfl⟩
  · rw [detectCols, foldl_colStep_cuenta]
    exact orO_none _
  · rw [detectCols, foldl_colStep_debe]
    exact orO_none _
  · rw [detectCols, foldl_colStep_haber]
    exact orO_none _

/-- Witness instantiating the amended C5 at a concrete header list. -/
theorem claim_C5_witness :
    (detectCols ["X", "HABER", "DEBE"]).cuenta = lastIdx predCuenta ["X", "HABER", "DEBE"].enum ∧
    (detectCols ["X", "HABER", "DEBE"]).debe = lastIdx predDebe ["X", "HABER", "DEBE"].enum ∧
    (detectCols ["X", "HABER", "DEBE"]).haber = lastIdx predHaber ["X", "HABER", "DEBE"].enum ∧
    colMapFor ["X", "HABER", "DEBE"] =
      (if (detectCols ["X", "HABER", "DEBE"]).cuenta = none ∨
          (detectCols ["X", "HABER", "DEBE"]).debe = none
       then positional3 (["X", "HABER", "DEBE"] : List String).length
       else detectCols ["X", "HABER", "DEBE"]) ∧
    (∀ row : List Cell, colCell row none = Cell.empty) ∧
    Cell.toNumeric Cell.empty = none :=
  claim_C5 ["X", "HABER", "DEBE"]

/-! Concrete data reused by the witnesses. -/

def dAug5 : Date := ⟨2025, 8, 5⟩

/-- End-to-end scenario B of the specification, as unified ledger lines. -/
def linesB : List LedgerLine :=
  [⟨dAug5, "CAJA MENOR", some 500000, none⟩,
   ⟨dAug5, "PAPELERIA", some 120000, none⟩,
   ⟨dAug5, "BANCO XYZ", some 350000, none⟩]

/-- A ledger whose itemized debits exceed the withdrawal. -/
def linesNeg : List LedgerLine :=
  [⟨dAug5, "CAJA MENOR", some 100, none⟩, ⟨dAug5, "PAPEL", some 250, none⟩]

/-- A ledger with a positive credit line. -/
def linesCred : List LedgerLine := [⟨dAug5, "X", none, some 200000⟩]

/-! Transfer-mode selection. -/

theorem creditSum_any (lines : List LedgerLine) (h : 0 < creditSum lines) :
    anyCredit lines = true := by
  rw [anyCredit, List.any_eq_true]
  by_contra hn
  push_neg at hn
  have hz : creditSum lines = 0 := by
    rw [creditSum]
    apply List.sum_eq_zero
    intro x hx
    obtain ⟨l, hl, hxl⟩ := List.mem_map.mp hx
    have hnone : l.haber = none := by
      cases ho : l.haber with
      | none => rfl
      | some v => exact absurd (by rw [ho]; rfl) (hn l hl)
    rw [← hxl, haberVal, hnone]
    rfl
  rw [hz] at h
  exact lt_irrefl 0 h

theorem transferMode_eq (lines : List LedgerLine) :
    transferMode lines = if 0 < creditSum lines then .credit else .keyword := by
  by_cases h : 0 < creditSum lines
  · rw [if_pos h, transferMode, creditSum_any lines h]
    simp [h]
  · rw [if_neg h, transferMode]
    simp [h]

/-- Claim C1: the transfer-detection mode is a single global value computed
from the credit total of the whole unified ledger: credit mode exactly when
the total is positive (keyword mode when it is zero), and in credit mode the
candidates are precisely the lines with positive credit, valued by the credit
column. -/
theorem claim_C1 (lines : List LedgerLine) (minD : ℚ) (kws : List String) :
    transferMode lines = (if 0 < creditSum lines then .credit else .keyword) ∧
    (0 < creditSum lines →
      posiblesTrans lines minD kws = lines.filter haberPos ∧
      ∀ l, transValue lines l = haberVal l) := by
  refine ⟨transferMode_eq lines, fun h => ?_⟩
  have hm : transferMode lines = .credit := by
    rw [transferMode_eq, if_pos h]
  exact ⟨by simp only [posiblesTrans, hm], fun l => by simp only [transValue, hm]⟩

/-- Witness for C1 on a ledger with a positive credit line. -/
theorem claim_C1_witness :
    (transferMode linesCred = (if 0 < creditSum linesCred then .credit else .keyword)) ∧
    (posiblesTrans linesCred 300000 ["BANCO"] = linesCred.filter haberPos ∧
      ∀ l, transValue linesCred l = haberVal l) :=
  ⟨(claim_C1 linesCred 300000 ["BANCO"]).1,
   (claim_C1 linesCred 300000 ["BANCO"]).2
     (by norm_num [creditSum, linesCred, haberVal])⟩

/-! Withdrawals view. -/

/-- Claim C3: the withdrawals view has one row per date with at least one line
whose account equals the petty-cash name case-insensitively (full-string
equality) and whose debit is positive, and its amount is the sum of exactly
those lines' debits. -/
theorem claim_C3 (lines : List LedgerLine) (key : String) :
    (∀ d, d ∈ retirosDates lines key ↔
       ∃ l, l ∈ lines ∧ l.fecha = d ∧ pyUpper l.cuenta = pyUpper key ∧ debePos l = true) ∧
    (∀ d, montoAt lines key d =
       ((lines.filter (fun l => (l.fecha == d) && (isPetty key l && debePos l))).map
         debeVal).sum) := by
  constructor
  · intro d
    simp only [retirosDates, retirosLines, List.mem_toFinset, List.mem_map, List.mem_filter,
      Bool.and_eq_true, isPetty, beq_iff_eq]
    constructor
    · rintro ⟨l, ⟨hl, hu, hp⟩, hf⟩
      exact ⟨l, hl, hf, hu, hp⟩
    · rintro ⟨l, hl, hf, hu, hp⟩
      exact ⟨l, ⟨hl, hu, hp⟩, hf⟩
  · intro d
    unfold montoAt atDate retirosLines
    rw [List.filter_filter]

/-- Witness instantiating C3 at the scenario-B ledger. -/
theorem claim_C3_witness :
    (∀ d, d ∈ retirosDates linesB "CAJA MENOR" ↔
       ∃ l, l ∈ linesB ∧ l.fecha = d ∧ pyUpper l.cuenta = pyUpper "CAJA MENOR" ∧
         debePos l = true) ∧
    (∀ d, montoAt linesB "CAJA MENOR" d =
       ((linesB.filter (fun l => (l.fecha == d) && (isPetty "CAJA MENOR" l && debePos l))).map
         debeVal).sum) :=
  claim_C3 linesB "CAJA MENOR"

/-! Cash reconciliation. -/

theorem find?_keyed (g : Date → ℚ) (ds : List Date) (d : Date) :
    (ds.map (fun x => (x, g x))).find? (fun p => p.1 == d) =
      if d ∈ ds then some (d, g d) else none := by
  induction ds with
  | nil => simp
  | cons x ds ih =>
    by_cases hx : x = d
    · subst hx
      simp [List.find?]
    · have hb : ((fun p : Date × ℚ => p.1 == d) (x, g x)) = false := by
        simp [hx]
      rw [List.map_cons, List.find?_cons_of_neg _ (by simp [hb]), ih]
      exact (if_congr (by rw [List.mem_cons]; exact or_iff_right fun h => hx h.symm)
        rfl rfl).symm

theorem lookupFill_detTotals (lines : List LedgerLine) (key : String) (d : Date) :
    lookupFill (detTotalsTable lines key) d = detalleTotalAt lines key d := by
  unfold lookupFill detTotalsTable
  rw [find?_keyed]
  by_cases hd : d ∈ ((detalles lines key).map (·.fecha)).dedup
  · rw [if_pos hd]
  · rw [if_neg hd]
    have hnil : atDate d (detalles lines key) = [] := by
      rw [atDate, List.filter_eq_nil_iff]
      intro l hl hbeq
      exact hd (List.mem_dedup.mpr (List.mem_map.mpr ⟨l, hl, beq_iff_eq.mp hbeq⟩))
    rw [detalleTotalAt, hnil]
    rfl

/-- Claim C2: for every withdrawal date, `cashDelivered` equals the withdrawal
amount minus that date's itemized total, rounded to zero decimals, where the
itemized total is the sum of the date's non-petty-cash debits and defaults to
0 when no such lines exist; the result is produced as-is, also when negative. -/
theorem claim_C2 (lines : List LedgerLine) (key : String) (d : Date)
    (_h : d ∈ retirosDates lines key) :
    efectivoAt lines key d =
      (roundHalfEven (montoAt lines key d - detalleTotalAt lines key d) : ℚ) ∧
    (atDate d (detalles lines key) = [] → detalleTotalAt lines key d = 0) := by
  refine ⟨?_, fun he => ?_⟩
  · unfold efectivoAt
    rw [lookupFill_detTotals]
  · rw [detalleTotalAt, he]
    rfl

/-- Witness for C2 on a ledger whose itemized total exceeds the withdrawal:
`cashDelivered` comes out negative and is reported as-is. -/
theorem claim_C2_witness :
    dAug5 ∈ retirosDates linesNeg "CAJA MENOR" ∧
    efectivoAt linesNeg "CAJA MENOR" dAug5 = -150 ∧
    (efectivoAt linesNeg "CAJA MENOR" dAug5 =
       (roundHalfEven (montoAt linesNeg "CAJA MENOR" dAug5 -
          detalleTotalAt linesNeg "CAJA MENOR" dAug5) : ℚ) ∧
     (atDate dAug5 (detalles linesNeg "CAJA MENOR") = [] →
        detalleTotalAt linesNeg "CAJA MENOR" dAug5 = 0)) := by
  refine ⟨by decide, ?_, claim_C2 linesNeg "CAJA MENOR" dAug5 (by decide)⟩
  have h1 : atDate dAug5 (retirosLines linesNeg "CAJA MENOR") =
      [⟨dAug5, "CAJA MENOR", some 100, none⟩] := by decide
  have h2 : atDate dAug5 (detalles linesNeg "CAJA MENOR") =
      [⟨dAug5, "PAPEL", some 250, none⟩] := by decide
  rw [efectivoAt, lookupFill_detTotals, montoAt, h1, detalleTotalAt, h2]
  simp only [List.map_cons, List.map_nil, List.sum_cons, List.sum_nil, debeVal]
  norm_num [roundHalfEven]

/-! Keyword-mode transfer detection. -/

/-- Claim C4: in keyword mode a line is a transfer candidate exactly when its
debit is at least the threshold and its upper-cased account contains one of
the configured comma-separated keywords (each trimmed and upper-cased); the
value column is the debit, and a date's daily transfer total is the sum of
that date's candidates' debits. -/
theorem claim_C4 (lines : List LedgerLine) (minD : ℚ) (raw : String)
    (hmode : transferMode lines = .keyword) :
    (∀ l, l ∈ posiblesTrans lines minD (keywordList raw) ↔
       l ∈ lines ∧ debeGe minD l = true ∧
       ∃ tok, tok ∈ pySplitComma raw ∧ pyTrim tok ≠ "" ∧
         strContainsSub (pyUpper l.cuenta) (pyUpper (pyTrim tok)) = true) ∧
    (∀ d, transDailyAt lines minD (keywordList raw) d =
       ((atDate d (posiblesTrans lines minD (keywordList raw))).map debeVal).sum) := by
  constructor
  · intro l
    simp only [posiblesTrans, hmode, List.mem_filter, Bool.and_eq_true, kwMatch,
      List.any_eq_true, keywordList, List.mem_map, List.mem_filter, decide_eq_true_eq]
    constructor
    · rintro ⟨hl, hge, k, ⟨tok, ⟨htok, hne⟩, rfl⟩, hcs⟩
      exact ⟨hl, hge, tok, htok, hne, hcs⟩
    · rintro ⟨hl, hge, tok, htok, hne, hcs⟩
      exact ⟨hl, hge, pyUpper (pyTrim tok), ⟨tok, ⟨htok, hne⟩, rfl⟩, hcs⟩
  · intro d
    have hf : transValue lines = debeVal := by
      funext x
      simp only [transValue, hmode]
    rw [transDailyAt, hf]

def rawKW : String := "PROVEEDOR,PROVEEDORES,BANCO,ARRIENDO"

theorem modeB : transferMode linesB = .keyword := by
  have hcs : creditSum linesB = 0 := by
    simp [creditSum, linesB, haberVal]
  rw [transferMode_eq, hcs, if_neg (lt_irrefl 0)]

theorem posiblesB :
    posiblesTrans linesB 300000 (keywordList rawKW) =
      [⟨dAug5, "BANCO XYZ", some 350000, none⟩] := by
  simp only [posiblesTrans, modeB]
  decide

/-- Witness for C4 at scenario B: the BANCO row is a candidate and the daily
transfer total for 2025-08-05 is 350000. -/
theorem claim_C4_witness :
    transferMode linesB = .keyword ∧
    (⟨dAug5, "BANCO XYZ", some 350000, none⟩ : LedgerLine) ∈
      posiblesTrans linesB 300000 (keywordList rawKW) ∧
    transDailyAt linesB 300000 (keywordList rawKW) dAug5 = 350000 ∧
    (∀ l, l ∈ posiblesTrans linesB 300000 (keywordList rawKW) ↔
       l ∈ linesB ∧ debeGe 300000 l = true ∧
       ∃ tok, tok ∈ pySplitComma rawKW ∧ pyTrim tok ≠ "" ∧
         strContainsSub (pyUpper l.cuenta) (pyUpper (pyTrim tok)) = true) := by
  refine ⟨modeB, ?_, ?_, (claim_C4 linesB 300000 rawKW modeB).1⟩
  · rw [posiblesB]
    exact List.mem_singleton.mpr rfl
  · rw [transDailyAt, posiblesB,
      show atDate dAug5 [(⟨dAug5, "BANCO XYZ", some 350000, none⟩ : LedgerLine)] =
        [⟨dAug5, "BANCO XYZ", some 350000, none⟩] from by decide]
    simp [transValue, modeB, debeVal]

/-! Overlap of the classified views. -/

/-- Claim C10: in keyword mode with a positive threshold, every transfer
candidate on a non-petty-cash account is also an itemized line, its debit is
one summand of that date's itemized total, and that total is what is
subtracted (before rounding) in the cash-delivered figure. -/
theorem claim_C10 (lines : List LedgerLine) (key : String) (minD : ℚ)
    (kws : List String) (l : LedgerLine)
    (hmode : transferMode lines = .keyword) (hmin : 0 < minD)
    (hmem : l ∈ posiblesTrans lines minD kws)
    (hnp : pyUpper l.cuenta ≠ pyUpper key) :
    l ∈ detalles lines key ∧
    detalleTotalAt lines key l.fecha =
      debeVal l + ((atDate l.fecha ((detalles lines key).erase l)).map debeVal).sum ∧
    efectivoAt lines key l.fecha =
      (roundHalfEven (montoAt lines key l.fecha - detalleTotalAt lines key l.fecha) : ℚ) := by
  have hmem' : l ∈ lines ∧ (debeGe minD l && kwMatch kws l) = true := by
    simpa only [posiblesTrans, hmode, List.mem_filter] using hmem
  obtain ⟨hl, hb⟩ := hmem'
  rw [Bool.and_eq_true] at hb
  obtain ⟨hge, _⟩ := hb
  have hpos : debePos l = true := by
    cases ho : l.debe with
    | none =>
      rw [debeGe, ho] at hge
      exact absurd hge (by simp)
    | some v =>
      rw [debeGe, ho, decide_eq_true_eq] at hge
      rw [debePos, ho, decide_eq_true_eq]
      exact lt_of_lt_of_le hmin hge
  have hd : l ∈ detalles lines key := by
    rw [detalles, List.mem_filter, Bool.and_eq_true, Bool.not_eq_true', isPetty]
    exact ⟨hl, hpos, beq_eq_false_iff_ne.mpr hnp⟩
  have hperm : (detalles lines key).Perm (l :: (detalles lines key).erase l) :=
    List.perm_cons_erase hd
  refine ⟨hd, ?_, by rw [efectivoAt, lookupFill_detTotals]⟩
  calc detalleTotalAt lines key l.fecha
      = ((atDate l.fecha (l :: (detalles lines key).erase l)).map debeVal).sum := by
        rw [detalleTotalAt]
        exact ((hperm.filter _).map debeVal).sum_eq
    _ = debeVal l + ((atDate l.fecha ((detalles lines key).erase l)).map debeVal).sum := by
        rw [atDate, List.filter_cons_of_pos (by simp), List.map_cons, List.sum_cons]
        rfl

/-- Witness for C10 at scenario B: the BANCO candidate is itemized and its
debit is a summand of the itemized total for its date. -/
theorem claim_C10_witness :
    (⟨dAug5, "BANCO XYZ", some 350000, none⟩ : LedgerLine) ∈ detalles linesB "CAJA MENOR" ∧
    detalleTotalAt linesB "CAJA MENOR" dAug5 =
      debeVal (⟨dAug5, "BANCO XYZ", some 350000, none⟩ : LedgerLine) +
      ((atDate dAug5 ((detalles linesB "CAJA MENOR").erase
          ⟨dAug5, "BANCO XYZ", some 350000, none⟩)).map debeVal).sum ∧
    efectivoAt linesB "CAJA MENOR" dAug5 =
      (roundHalfEven (montoAt linesB "CAJA MENOR" dAug5 -
         detalleTotalAt linesB "CAJA MENOR" dAug5) : ℚ) :=
  claim_C10 linesB "CAJA MENOR" 300000 (keywordList rawKW)
    ⟨dAug5, "BANCO XYZ", some 350000, none⟩ modeB (by decide)
    (by rw [posiblesB]; exact List.mem_singleton.mpr rfl) (by decide)

/-! Row-filter invariant. -/

def c8sheet : Sheet :=
  ⟨"05/08/2025", ["CUENTA", "DEBE", "HABER"], [[.text " cuenta ", .num 100, .empty]]⟩

/-- Claim C8 fails on the code: a row whose account is `" cuenta "` survives
into the unified ledger (stored trimmed as `"cuenta"`), although its trimmed,
case-normalized account equals the header token `"CUENTA"`: the header-token
filter compares the account before trimming. -/
theorem claim_C8_cex :
    load_ledger [c8sheet] = .ok [⟨dAug5, "cuenta", some 100, none⟩] ∧
    pyUpper (pyTrim "cuenta") = "CUENTA" := by
  exact ⟨rfl, by decide⟩

/-- Claim C8, amended: a per-sheet row is discarded exactly when its account,
debit and credit cells are all null, or when its stringified account,
upper-cased WITHOUT trimming, equals the header token `"CUENTA"`; every
surviving row carries the trimmed, stringified account (so an account that
equals the header token only after trimming survives). -/
theorem claim_C8 (f : Option Date) (cm : ColMap) (row : List Cell) :
    (rowRaw f cm row = none ↔
      ((colCell row cm.cuenta = Cell.empty ∧ (colCell row cm.debe).toNumeric = none ∧
        (colCell row cm.haber).toNumeric = none) ∨
       pyUpper (colCell row cm.cuenta).toPyStr = "CUENTA")) ∧
    (∀ r, rowRaw f cm row = some r →
       r.fecha = f ∧ r.cuenta = pyTrim (colCell row cm.cuenta).toPyStr ∧
       r.debe = (colCell row cm.debe).toNumeric ∧
       r.haber = (colCell row cm.haber).toNumeric) := by
  unfold rowRaw
  split_ifs with h1 h2
  · exact ⟨⟨fun _ => Or.inl h1, fun _ => rfl⟩, fun r hr => absurd hr (by simp)⟩
  · exact ⟨⟨fun _ => Or.inr h2, fun _ => rfl⟩, fun r hr => absurd hr (by simp)⟩
  · refine ⟨⟨fun hr => absurd hr (by simp), fun hor => (not_or.mpr ⟨h1, h2⟩ hor).elim⟩,
      fun r hr => ?_⟩
    cases hr
    exact ⟨rfl, rfl, rfl, rfl⟩

/-- Witness instantiating the amended C8 at the counterexample row. -/
theorem claim_C8_witness :
    (rowRaw (some dAug5) ⟨some 0, some 1, some 2⟩ [.text " cuenta ", .num 100, .empty] = none ↔
      ((colCell [.text " cuenta ", .num 100, .empty] (some 0) = Cell.empty ∧
        (colCell [.text " cuenta ", .num 100, .empty] (some 1)).toNumeric = none ∧
        (colCell [.text " cuenta ", .num 100, .empty] (some 2)).toNumeric = none) ∨
       pyUpper (colCell [.text " cuenta ", .num 100, .empty] (some 0)).toPyStr = "CUENTA")) ∧
    (∀ r, rowRaw (some dAug5) ⟨some 0, some 1, some 2⟩
        [.text " cuenta ", .num 100, .empty] = some r →
       r.fecha = some dAug5 ∧
       r.cuenta = pyTrim (colCell [.text " cuenta ", .num 100, .empty] (some 0)).toPyStr ∧
       r.debe = (colCell [.text " cuenta ", .num 100, .empty] (some 1)).toNumeric ∧
       r.haber = (colCell [.text " cuenta ", .num 100, .empty] (some 2)).toNumeric) :=
  claim_C8 (some dAug5) ⟨some 0, some 1, some 2⟩ [.text " cuenta ", .num 100, .empty]

/-! Order-independence of the aggregates. -/

/-- The rows a readable sheet contributes (empty for a raising sheet). -/
def okValue (sh : Sheet) : List RawLine :=
  match sheetRaw sh with
  | .ok rs => rs
  | .error _ => []

theorem collectRaw_ok_eq {l : List Sheet} {r : List RawLine}
    (h : collectRaw l = .ok r) : r = (l.map okValue).flatten := by
  induction l generalizing r with
  | nil =>
    rw [collectRaw_nil] at h
    cases h
    rfl
  | cons sh rest ih =>
    rw [collectRaw_cons] at h
    cases h1 : sheetRaw sh with
    | error e =>
      rw [h1] at h
      exact absurd h (by simp)
    | ok rs =>
      rw [h1] at h
      cases h2 : collectRaw rest with
      | error e =>
        rw [h2] at h
        exact absurd h (by simp)
      | ok acc =>
        rw [h2] at h
        have hr : rs ++ acc = r := by
          simpa using h
        rw [← hr, List.map_cons, List.flatten_cons, ih h2, okValue, h1]

theorem load_ledger_ok {sheets : List Sheet} {L : List LedgerLine}
    (h : load_ledger sheets = .ok L) :
    ∃ r, collectRaw sheets = .ok r ∧ L = r.filterMap promote := by
  rw [load_ledger_eq] at h
  cases hc : collectRaw sheets with
  | error e =>
    rw [hc] at h
    exact absurd h (by simp)
  | ok r =>
    rw [hc] at h
    exact ⟨r, rfl, by simpa using h.symm⟩

theorem perm_any {α : Type} {l1 l2 : List α} (h : l1.Perm l2) (p : α → Bool) :
    l1.any p = l2.any p := by
  refine Bool.eq_iff_iff.mpr ?_
  simp only [List.any_eq_true]
  exact ⟨fun ⟨x, hx, hp⟩ => ⟨x, h.mem_iff.mp hx, hp⟩,
         fun ⟨x, hx, hp⟩ => ⟨x, h.mem_iff.mpr hx, hp⟩⟩

theorem dedup_map_sum {κ : Type} [DecidableEq κ] (g : κ → ℚ) (ds : List κ) :
    (ds.dedup.map g).sum = ds.toFinset.sum g := by
  rw [← List.sum_toFinset g (List.nodup_dedup ds)]
  congr 1
  ext a
  simp [List.mem_toFinset, List.mem_dedup]

theorem sum_fiberwise {α κ : Type} [DecidableEq κ] (keyf : α → κ) (f : α → ℚ)
    (l : List α) :
    (∑ k ∈ (l.map keyf).toFinset, ((l.filter (fun x => keyf x == k)).map f).sum) =
      (l.map f).sum := by
  induction l with
  | nil => simp
  | cons x l ih =>
    have hsplit : ∀ k, (((x :: l).filter (fun a => keyf a == k)).map f).sum =
        (if keyf x = k then f x else 0) + ((l.filter (fun a => keyf a == k)).map f).sum := by
      intro k
      by_cases h : keyf x = k
      · rw [List.filter_cons_of_pos (by simp [h]), List.map_cons, List.sum_cons, if_pos h]
      · rw [List.filter_cons_of_neg (by simp [h]), if_neg h, zero_add]
    rw [List.map_cons, List.map_cons, List.sum_cons, List.toFinset_cons,
      Finset.sum_congr rfl (fun k _ => hsplit k), Finset.sum_add_distrib]
    congr 1
    · rw [Finset.sum_ite_eq _ (keyf x) (fun _ => f x),
        if_pos (Finset.mem_insert_self _ _)]
    · by_cases hx : keyf x ∈ (l.map keyf).toFinset
      · rw [Finset.insert_eq_self.mpr hx, ih]
      · rw [Finset.sum_insert hx, ih]
        have hnil : l.filter (fun a => keyf a == keyf x) = [] := by
          rw [List.filter_eq_nil_iff]
          intro a ha hba
          exact hx (List.mem_toFinset.mpr (List.mem_map.mpr ⟨a, ha, beq_iff_eq.mp hba⟩))
        rw [hnil]
        simp

/-- The scalar `total_trans` equals the plain sum of the value column over all transfer
candidates (the per-date regrouping does not change the total). -/
theorem totalTrans_eq (lines : List LedgerLine) (minD : ℚ) (kws : List String) :
    totalTrans lines minD kws =
      ((posiblesTrans lines minD kws).map (transValue lines)).sum := by
  rw [totalTrans, transDiarioTable, List.map_map]
  have hcomp : ((fun p : Date × ℚ => p.2) ∘
      (fun d => (d, transDailyAt lines minD kws d))) =
      fun d => transDailyAt lines minD kws d := rfl
  rw [hcomp, dedup_map_sum]
  exact sum_fiberwise (·.fecha) (transValue lines) (posiblesTrans lines minD kws)

/-- Claim C9: all aggregates are invariant under permutation of the sheets:
the unified ledgers are permutations of each other, and every derived view
(withdrawal dates and amounts, itemized lines and totals, cash delivered,
transfer candidates, daily transfer totals, total transferred) coincides. -/
theorem claim_C9 (s1 s2 : List Sheet) (key : String) (minD : ℚ) (kws : List String)
    (L1 L2 : List LedgerLine) (hs : s1.Perm s2)
    (h1 : load_ledger s1 = .ok L1) (h2 : load_ledger s2 = .ok L2) :
    L1.Perm L2 ∧
    retirosDates L1 key = retirosDates L2 key ∧
    (∀ d, montoAt L1 key d = montoAt L2 key d) ∧
    (detalles L1 key).Perm (detalles L2 key) ∧
    (∀ d, detalleTotalAt L1 key d = detalleTotalAt L2 key d) ∧
    (∀ d, efectivoAt L1 key d = efectivoAt L2 key d) ∧
    (posiblesTrans L1 minD kws).Perm (posiblesTrans L2 minD kws) ∧
    (∀ d, transDailyAt L1 minD kws d = transDailyAt L2 minD kws d) ∧
    totalTrans L1 minD kws = totalTrans L2 minD kws := by
  obtain ⟨r1, hc1, hL1⟩ := load_ledger_ok h1
  obtain ⟨r2, hc2, hL2⟩ := load_ledger_ok h2
  have hperm : L1.Perm L2 := by
    rw [hL1, hL2, collectRaw_ok_eq hc1, collectRaw_ok_eq hc2]
    exact ((hs.map okValue).flatten).filterMap promote
  have hRet := hperm.filter (fun l => isPetty key l && debePos l)
  have hDet := hperm.filter (fun l => debePos l && !(isPetty key l))
  have hDetTot : ∀ d, detalleTotalAt L1 key d = detalleTotalAt L2 key d := by
    intro d
    exact ((hDet.filter (fun l => l.fecha == d)).map debeVal).sum_eq
  have hMonto : ∀ d, montoAt L1 key d = montoAt L2 key d := by
    intro d
    exact ((hRet.filter (fun l => l.fecha == d)).map debeVal).sum_eq
  have hany : anyCredit L1 = anyCredit L2 := by
    rw [anyCredit, anyCredit]
    exact perm_any hperm _
  have hcs : creditSum L1 = creditSum L2 := by
    rw [creditSum, creditSum]
    exact (hperm.map haberVal).sum_eq
  have hmode : transferMode L1 = transferMode L2 := by
    rw [transferMode, transferMode, hany, hcs]
  have hPos : (posiblesTrans L1 minD kws).Perm (posiblesTrans L2 minD kws) := by
    cases hm : transferMode L1 with
    | credit =>
      have hm2 : transferMode L2 = .credit := hmode ▸ hm
      simp only [posiblesTrans, hm, hm2]
      exact hperm.filter haberPos
    | keyword =>
      have hm2 : transferMode L2 = .keyword := hmode ▸ hm
      simp only [posiblesTrans, hm, hm2]
      exact hperm.filter (fun l => debeGe minD l && kwMatch kws l)
  have hVal : transValue L1 = transValue L2 := by
    funext l
    rw [transValue, transValue, hmode]
  refine ⟨hperm, ?_, hMonto, hDet, hDetTot, ?_, hPos, ?_, ?_⟩
  · exact List.toFinset_eq_of_perm _ _ (hRet.map (·.fecha))
  · intro d
    rw [efectivoAt, efectivoAt, lookupFill_detTotals, lookupFill_detTotals,
      hMonto d, hDetTot d]
  · intro d
    rw [transDailyAt, transDailyAt, ← hVal]
    exact ((hPos.filter (fun l => l.fecha == d)).map (transValue L1)).sum_eq
  · rw [totalTrans_eq, totalTrans_eq, ← hVal]
    exact (hPos.map (transValue L1)).sum_eq

def sheetA : Sheet :=
  ⟨"05/08/2025", ["CUENTA", "DEBE", "HABER"],
   [[.text "CAJA MENOR", .num 500000, .empty], [.text "PAPELERIA", .num 120000, .empty]]⟩

def sheetB : Sheet :=
  ⟨"06/08/2025", ["CUENTA", "DEBE", "HABER"], [[.text "BANCO XYZ", .num 350000, .empty]]⟩

def ledgerAB : List LedgerLine :=
  [⟨dAug5, "CAJA MENOR", some 500000, none⟩, ⟨dAug5, "PAPELERIA", some 120000, none⟩,
   ⟨⟨2025, 8, 6⟩, "BANCO XYZ", some 350000, none⟩]

def ledgerBA : List LedgerLine :=
  [⟨⟨2025, 8, 6⟩, "BANCO XYZ", some 350000, none⟩,
   ⟨dAug5, "CAJA MENOR", some 500000, none⟩, ⟨dAug5, "PAPELERIA", some 120000, none⟩]

/-- Witness for C9 on a concrete two-sheet workbook and its reversal. -/
theorem claim_C9_witness :
    ledgerAB.Perm ledgerBA ∧
    retirosDates ledgerAB "CAJA MENOR" = retirosDates ledgerBA "CAJA MENOR" ∧
    (∀ d, montoAt ledgerAB "CAJA MENOR" d = montoAt ledgerBA "CAJA MENOR" d) ∧
    (detalles ledgerAB "CAJA MENOR").Perm (detalles ledgerBA "CAJA MENOR") ∧
    (∀ d, detalleTotalAt ledgerAB "CAJA MENOR" d = detalleTotalAt ledgerBA "CAJA MENOR" d) ∧
    (∀ d, efectivoAt ledgerAB "CAJA MENOR" d = efectivoAt ledgerBA "CAJA MENOR" d) ∧
    (posiblesTrans ledgerAB 300000 (keywordList rawKW)).Perm
      (posiblesTrans ledgerBA 300000 (keywordList rawKW)) ∧
    (∀ d, transDailyAt ledgerAB 300000 (keywordList rawKW) d =
       transDailyAt ledgerBA 300000 (keywordList rawKW) d) ∧
    totalTrans ledgerAB 300000 (keywordList rawKW) =
      totalTrans ledgerBA 300000 (keywordList rawKW) :=
  claim_C9 [sheetA, sheetB] [sheetB, sheetA] "CAJA MENOR" 300000 (keywordList rawKW)
    ledgerAB ledgerBA (by decide) rfl rfl

end Surti
